import Mathlib

/-!
# Verification of the arpeely-scraper crawl engine

A shallow embedding of the crawl engine of the `arpeely_scraper` repository:
the frontier store (`db_connector/scraped_url_db_connector.py`), link and
text extraction, and the two crawl orchestrators
(`core/scraper.py`, `WebScraper.scrape` and `WebScraper.ascrape`),
together with theorems settling the specified properties.

External library primitives (`urllib.parse`, BeautifulSoup) are modelled
explicitly where the engine depends on their behaviour; each such model is
documented at its definition.
-/

namespace ArpeelyScraper

/-! ## Frontier store model
Embedding of `db_connector/scraped_url_db_connector.py`.  The table
`scraped_urls` is a list of rows; `filter_by(...).first()` is the first
row matching the `(base_url, url)` key, and a SQLAlchemy `session.add`
appends a fresh row. -/

/-- `UrlStatusEnum` of the connector: members `queued` and `completed`. -/
inductive UrlStatus where
  | queued
  | completed
deriving DecidableEq, Repr

/-- One row of the `scraped_urls` table (`class ScrapedUrl`).
`links_to_texts` is the JSON mapping, modelled as an insertion-ordered
association list (Python `dict` semantics). -/
structure ScrapedUrl where
  base_url : String
  url : String
  source_url : Option String
  depth : Nat
  title : Option String
  links_to_texts : List (String × String)
  topic : String
  status : UrlStatus
deriving DecidableEq, Repr

/-- The table contents. -/
abbrev Db := List ScrapedUrl

/-- `session.query(ScrapedUrl).filter_by(base_url=..., url=...).first()`. -/
def findRecord (db : Db) (b u : String) : Option ScrapedUrl :=
  db.find? (fun r => r.base_url == b && r.url == u)

/-- `ScrapedUrlDBConnector.upsert_scraped_url`: the first row matching the
`(base_url, url)` key has all of `source_url`, `depth`, `title`,
`links_to_texts`, `topic`, `status` overwritten; when no row matches, a
fresh row is appended. -/
def upsert_scraped_url (db : Db) (b u : String) (source_url : Option String)
    (depth : Nat) (title : Option String) (links_to_texts : List (String × String))
    (status : UrlStatus) (topic : String) : Db :=
  match db with
  | [] => [⟨b, u, source_url, depth, title, links_to_texts, topic, status⟩]
  | r :: rs =>
    if r.base_url == b && r.url == u then
      ⟨r.base_url, r.url, source_url, depth, title, links_to_texts, topic, status⟩ :: rs
    else
      r :: upsert_scraped_url rs b u source_url depth title links_to_texts status topic

/-- `ScrapedUrlDBConnector.update_status`: set only `status` on the first
row matching the key; when no row matches, do nothing. -/
def update_status (db : Db) (b u : String) (status : UrlStatus) : Db :=
  match db with
  | [] => []
  | r :: rs =>
    if r.base_url == b && r.url == u then
      { r with status := status } :: rs
    else
      r :: update_status rs b u status

/-- `UrlToProcess` (`utils/dataclasses.py`): a plain `@dataclass` holding
a pending URL.  It defines no `__iter__`, so a Python tuple-unpacking of
an instance raises a `TypeError`. -/
structure UrlToProcess where
  url : String
  source_url : Option String
  depth : Nat
deriving DecidableEq, Repr

/-- `ScrapedUrlDBConnector.get_queued_urls`: all rows of this `base_url`
with status `queued`, each packaged as a `UrlToProcess` dataclass
instance. -/
def get_queued_urls (db : Db) (b : String) : List UrlToProcess :=
  (db.filter (fun r => r.base_url == b && r.status == UrlStatus.queued)).map
    (fun r => ⟨r.url, r.source_url, r.depth⟩)

/-! ## Python string primitives
The engine leans on `str.strip`, `str.startswith`, truthiness of strings
and `' '.join`; they are modelled structurally over the character list so
that every concrete run evaluates inside the kernel. -/

/-- Python `str.strip()` with no argument: remove leading and trailing
whitespace. -/
def pyStrip (s : String) : String :=
  ⟨((s.data.dropWhile Char.isWhitespace).reverse.dropWhile Char.isWhitespace).reverse⟩

/-- Python `s.startswith(pre)`. -/
def pyStartsWith (s pre : String) : Bool :=
  pre.data.isPrefixOf s.data

/-- Python `sep.join(parts)`. -/
def pyJoin (sep : String) (parts : List String) : String :=
  match parts with
  | [] => ""
  | p :: ps => ps.foldl (fun r q => r ++ sep ++ q) p

/-! ## URL parsing model
The engine calls `urllib.parse.urlparse` (for `scheme` / `netloc`) and
`urllib.parse.urljoin`.  These are library functions, modelled here for
the reference classes the engine exercises: absolute URLs, scheme-relative
(`//host/...`), root-relative (`/path`) and plain relative references,
without dot-segment normalisation. -/

/-- Characters allowed after the first one in a URL scheme. -/
def isSchemeChar (c : Char) : Bool :=
  c.isAlphanum || c == '+' || c == '-' || c == '.'

/-- Helper for `splitScheme`: `acc` holds the scheme characters read so
far, in reverse. -/
def splitSchemeAux (acc : List Char) : List Char → Option (String × String)
  | [] => none
  | c :: cs =>
    if c == ':' then
      match acc with
      | [] => none
      | _ => some (⟨acc.reverse⟩, ⟨cs⟩)
    else if (acc == [] && c.isAlpha) || (acc != [] && isSchemeChar c) then
      splitSchemeAux (c :: acc) cs
    else
      none

/-- Model of the scheme split done by `urllib.parse.urlparse`: a URL of the
form `scheme ':' rest`, where the scheme starts with a letter and contains
only letters, digits, `+`, `-`, `.`, splits into `(scheme, rest)`. -/
def splitScheme (url : String) : Option (String × String) :=
  splitSchemeAux [] url.data

/-- Split `s` (a URL with any scheme prefix removed) into its network
location and the remainder: when `s` starts with `//`, the netloc runs up
to the next `/`, `?` or `#`. -/
def netlocSplit (s : String) : String × String :=
  match s.data with
  | '/' :: '/' :: t =>
    let nl := t.takeWhile (fun c => c != '/' && c != '?' && c != '#')
    (⟨nl⟩, ⟨t.drop nl.length⟩)
  | _ => ("", s)

/-- `urlparse(url).scheme` (up to case, which the engine never inspects). -/
def urlScheme (url : String) : String :=
  match splitScheme url with
  | some (sch, _) => sch
  | none => ""

/-- `urlparse(url).netloc`. -/
def urlNetloc (url : String) : String :=
  match splitScheme url with
  | some (_, rest) => (netlocSplit rest).1
  | none => (netlocSplit url).1

/-- `WebScraper._is_valid_url`:
`bool(parsed.netloc) and bool(parsed.scheme)`. -/
def is_valid_url (url : String) : Bool :=
  urlNetloc url != "" && urlScheme url != ""

/-- The directory prefix of a path, up to and including the last `/`
(the merge step of relative-reference resolution); an empty or
slash-free base path merges at the root. -/
def dirOf (path : String) : String :=
  let pref := (path.data.reverse.dropWhile (fun c => c != '/')).reverse
  match pref with
  | [] => "/"
  | _ => ⟨pref⟩

/-- Model of `urllib.parse.urljoin base url` on the reference classes the
engine exercises: an empty reference yields the base; a reference with its
own scheme is returned unchanged; otherwise the base's scheme (and for
non-network references its netloc) is carried over, root-relative
references replace the whole path, and plain relative references are
merged against the base path's directory.  Dot segments are not
normalised. -/
def urljoin (base url : String) : String :=
  if url == "" then base
  else
    match splitScheme url with
    | some _ => url
    | none =>
      match splitScheme base with
      | none => url
      | some (scheme, rest) =>
        if pyStartsWith url "//" then scheme ++ ":" ++ url
        else
          let (netloc, basePath0) := netlocSplit rest
          let basePath : String := ⟨basePath0.data.takeWhile (fun c => c != '?' && c != '#')⟩
          if pyStartsWith url "/" then scheme ++ "://" ++ netloc ++ url
          else scheme ++ "://" ++ netloc ++ dirOf basePath ++ url

/-! ## Parsed-page model
The spec treats HTML parsing as an external primitive: the engine needs
only "all anchors carrying an href", "a contained image and its `alt`",
"the `<title>` element's text" and "each paragraph's stripped text".
A `Soup` packages exactly these primitives of a parsed page. -/

/-- `link.find('img')` result: `alt` is `img.get('alt')`
(`none` when the attribute is absent). -/
structure ImgTag where
  alt : Option String
deriving DecidableEq, Repr

/-- One element of `soup.find_all('a', href=True)`: `href` is the raw
attribute value, `text` is `link.get_text(strip=True)`, `img` is
`link.find('img')`. -/
structure AnchorTag where
  href : String
  text : String
  img : Option ImgTag
deriving DecidableEq, Repr

/-- A parsed page (`BeautifulSoup` object), reduced to the primitives the
engine reads: its anchors, the raw text of its `<title>` element
(`none` when `soup.find('title')` is `None`), and the stripped text of
each paragraph. -/
structure Soup where
  anchors : List AnchorTag
  titleText : Option String
  paragraphs : List String
deriving DecidableEq, Repr

/-- `WebScraper._get_title`: the `<title>` text stripped, else `''`. -/
def get_title (soup : Soup) : String :=
  match soup.titleText with
  | some t => pyStrip t
  | none => ""

/-- `WebScraper._extract_page_text`: the stripped paragraph texts joined
with single spaces. -/
def extract_page_text (soup : Soup) : String :=
  pyJoin " " soup.paragraphs

/-- The skip test of `_extract_links_with_text` on the stripped href:
`not href or href.startswith(('#', 'javascript:', 'mailto:'))`. -/
def skipHref (href : String) : Bool :=
  href == "" || pyStartsWith href "#" || pyStartsWith href "javascript:" ||
    pyStartsWith href "mailto:"

/-- The link-text computation of `_extract_links_with_text` for one anchor
whose resolved absolute URL is `absolute_url`:
`link.get_text(strip=True)`; if falsy, the contained image's `alt`
stripped when an image is present with a truthy (non-empty) `alt`,
else the absolute URL itself. -/
def linkTextOf (a : AnchorTag) (absolute_url : String) : String :=
  if a.text != "" then a.text
  else
    match a.img with
    | some img =>
      match img.alt with
      | some alt => if alt != "" then pyStrip alt else absolute_url
      | none => absolute_url
    | none => absolute_url

/-- `links[absolute_url] = link_text` on a Python dict: replace the value
in place when the key is present, otherwise append. -/
def dictInsert (d : List (String × String)) (k v : String) : List (String × String) :=
  if d.any (fun p => p.1 == k) then
    d.map (fun p => if p.1 == k then (k, v) else p)
  else
    d ++ [(k, v)]

/-- The body of `_extract_links_with_text`'s anchor loop. -/
def extractLinksStep (base_url : String) (links : List (String × String))
    (a : AnchorTag) : List (String × String) :=
  let href := pyStrip a.href
  if skipHref href then links
  else
    let absolute_url := urljoin base_url href
    if is_valid_url absolute_url then
      dictInsert links absolute_url (linkTextOf a absolute_url)
    else
      links

/-- `WebScraper._extract_links_with_text`: fold the anchor loop over
`soup.find_all('a', href=True)` starting from the empty dict. -/
def extract_links_with_text (soup : Soup) (base_url : String) : List (String × String) :=
  soup.anchors.foldl (extractLinksStep base_url) []

/-! ## Crawl orchestrators
Embedding of `WebScraper.scrape` (sequential) and `WebScraper.ascrape`
(level-synchronous concurrent).  The network fetch —
`_get_page_content` / `_get_page_content_async`, which catch every
exception internally and also map non-HTML content to `None` — is an
oracle `fetch : String → Option Soup`; the topic classifier is an oracle
`classify : String → String`.  In-memory session state (the visited and
scraped sets) is carried in a `CrawlState` together with the store
contents and a log of the fetch attempts issued. -/

/-- A pending work item `(url, source_url, depth)`
(`UrlToProcessType` in the source). -/
abbrev WorkItem := String × Option String × Nat

/-- One orchestrator invocation's state: the store contents, the session
visited and scraped sets (Python sets, carried as lists of their
elements), and the `(url, depth)` log of fetch attempts issued. -/
structure CrawlState where
  db : Db
  visited : List String
  scraped : List String
  fetchLog : List (String × Nat)
deriving DecidableEq, Repr

/-- `WebScraper._insert_to_db_as_queued`: upsert with `title=None`,
`links_to_texts={}`, `status='queued'` and the default `topic='other'`. -/
def insert_to_db_as_queued (db : Db) (initial_url url : String)
    (source_url : Option String) (depth : Nat) : Db :=
  upsert_scraped_url db initial_url url source_url depth none [] .queued "other"

/-- `WebScraper._insert_completed_scrape_to_db`: upsert with the page
title, the extracted links, the classified topic and
`status='completed'`. -/
def insert_completed_scrape_to_db (db : Db) (initial_url url : String)
    (source_url : Option String) (depth : Nat) (soup : Soup)
    (links_to_texts : List (String × String)) (topic : String) : Db :=
  upsert_scraped_url db initial_url url source_url depth (some (get_title soup))
    links_to_texts .completed topic

/-- The comprehension
`[(url, source_url, depth) for url, source_url, depth in queued_records]`
of `_recover_previous_state`: each iteration tuple-unpacks a
`UrlToProcess` dataclass instance, which is not iterable, so the
comprehension raises a `TypeError` at the first element; over an empty
list it yields the empty list. -/
def unpackQueuedRecords : List UrlToProcess → Except String (List WorkItem)
  | [] => .ok []
  | _ :: _ => .error "TypeError: cannot unpack non-iterable UrlToProcess object"

/-- `WebScraper._recover_previous_state`: unless starting fresh, read the
store's queued rows for this root; when any exist, build the work list by
tuple-unpacking them — which raises a `TypeError`, since the rows are
`UrlToProcess` dataclass instances — and otherwise (or when starting
fresh) fall back to the single seed `(initial_url, None, 0)`. -/
def recover_previous_state (db : Db) (start_fresh : Bool) (initial_url : String) :
    Except String (List WorkItem) :=
  if !start_fresh then
    match get_queued_urls db initial_url with
    | [] => .ok [(initial_url, none, 0)]
    | q1 :: qrest => unpackQueuedRecords (q1 :: qrest)
  else
    .ok [(initial_url, none, 0)]

/-- The work list the resume path is written to seed: the queued rows
projected to `(url, source_url, depth)` tuples when any exist and not
starting fresh, else the single seed.  The actual
`_recover_previous_state` produces this only in the seed cases — with at
least one queued row its tuple-unpacking raises a `TypeError` instead
(see `recover_previous_state`) — so a crawl loop started from this work
list exhibits a superset of the real program's runs, which is sound for
the safety properties proved over it. -/
def seeded_work_list (db : Db) (start_fresh : Bool) (initial_url : String) :
    List WorkItem :=
  if !start_fresh then
    match get_queued_urls db initial_url with
    | [] => [(initial_url, none, 0)]
    | queued_records => queued_records.map (fun q => (q.url, q.source_url, q.depth))
  else
    [(initial_url, none, 0)]

/-- One iteration of the `while urls_to_process` loop of
`WebScraper.scrape` on the popped item: skip when visited or too deep;
otherwise enqueue, mark visited, fetch; on content, classify, extract
links, write the completed record and (below `max_depth`) emit the
not-yet-visited links as children at `depth+1`; on no content, set the
`(initial_url, url)` record's status to completed.  Returns the new state
and the items appended to the back of the work list. -/
def scrapeStep (fetch : String → Option Soup) (classify : String → String)
    (initial_url : String) (max_depth : Nat) (s : CrawlState) (it : WorkItem) :
    CrawlState × List WorkItem :=
  let (current_url, source_url, current_depth) := it
  if s.visited.contains current_url ∨ current_depth > max_depth then (s, [])
  else
    let db1 := insert_to_db_as_queued s.db initial_url current_url source_url current_depth
    let visited1 := current_url :: s.visited
    match fetch current_url with
    | some soup =>
      let page_text := extract_page_text soup
      let topic := classify page_text
      let links_to_texts := extract_links_with_text soup current_url
      let db2 := insert_completed_scrape_to_db db1 initial_url current_url source_url
        current_depth soup links_to_texts topic
      let children :=
        if current_depth < max_depth then
          ((links_to_texts.map Prod.fst).filter (fun l => !(visited1.contains l))).map
            (fun l => (l, some current_url, current_depth + 1))
        else []
      ({ db := db2, visited := visited1, scraped := current_url :: s.scraped,
         fetchLog := s.fetchLog ++ [(current_url, current_depth)] }, children)
    | none =>
      ({ db := update_status db1 initial_url current_url .completed,
         visited := visited1, scraped := s.scraped,
         fetchLog := s.fetchLog ++ [(current_url, current_depth)] }, [])

/-- The `while urls_to_process` loop of `WebScraper.scrape`: pop the front
item, run `scrapeStep`, append its children at the back.  The loop always
terminates (each URL is processed at most once and depths are bounded);
the embedding makes that explicit with a fuel argument, and the theorems
hold for every fuel value. -/
def scrapeLoop (fetch : String → Option Soup) (classify : String → String)
    (initial_url : String) (max_depth : Nat) :
    Nat → CrawlState → List WorkItem → CrawlState
  | _, s, [] => s
  | 0, s, _ :: _ => s
  | fuel + 1, s, it :: rest =>
    let step := scrapeStep fetch classify initial_url max_depth s it
    scrapeLoop fetch classify initial_url max_depth fuel step.1 (rest ++ step.2)

/-- `WebScraper.scrape`: validate (`_validate_input`) before touching any
state — `max_depth < 0` or an invalid seed raises a `ValueError` — then
recover the work list (whose tuple-unpacking raises a `TypeError` when
there are queued rows) and run the loop.  The result pairs the error,
when one was raised, with the final crawl state; on a validation or
recovery error that state is exactly the initial one (store untouched,
nothing fetched). -/
def scrape (fetch : String → Option Soup) (classify : String → String)
    (start_fresh : Bool) (db : Db) (initial_url : String) (max_depth : Int)
    (fuel : Nat) : Option String × CrawlState :=
  if max_depth < 0 then
    (some "Max depth must be >= 0", ⟨db, [], [], []⟩)
  else if !(is_valid_url initial_url) then
    (some ("Invalid initial URL: " ++ initial_url), ⟨db, [], [], []⟩)
  else
    match recover_previous_state db start_fresh initial_url with
    | .error e => (some e, ⟨db, [], [], []⟩)
    | .ok urls_to_process =>
      (none, scrapeLoop fetch classify initial_url max_depth.toNat fuel ⟨db, [], [], []⟩
        urls_to_process)

/-- `WebScraper._scrape_url_concurrent` (state effects, exception-free
path): skip when the visited test-and-set loses; otherwise enqueue, fetch;
on content write the completed record and return every extracted link as a
child at `depth+1`; on no content call `update_status` with
`base_url = self.visited_urls.__iter__().__next__()` — an arbitrary
element of the visited set, modelled by the choice function `pickFn`
applied to the set's current elements — and return no children.  Units of
one level are interleaved arbitrarily by the scheduler; since each unit
operates on its own URL (the test-and-set makes the per-URL work
exclusive) and store writes are atomic per row, running them in task
order is a faithful linearisation for the store and log properties
proved here. -/
def ascrapeUnit (fetch : String → Option Soup) (classify : String → String)
    (pickFn : List String → String) (initial_url : String)
    (s : CrawlState) (it : WorkItem) : CrawlState × List WorkItem :=
  let (url, source_url, depth) := it
  if s.visited.contains url then (s, [])
  else
    let visited1 := url :: s.visited
    let db1 := insert_to_db_as_queued s.db initial_url url source_url depth
    match fetch url with
    | some soup =>
      let page_text := extract_page_text soup
      let topic := classify page_text
      let links_to_texts := extract_links_with_text soup url
      let db2 := insert_completed_scrape_to_db db1 initial_url url source_url depth soup
        links_to_texts topic
      ({ db := db2, visited := visited1, scraped := url :: s.scraped,
         fetchLog := s.fetchLog ++ [(url, depth)] },
       links_to_texts.map (fun p => (p.1, some url, depth + 1)))
    | none =>
      ({ db := update_status db1 (pickFn visited1) url .completed,
         visited := visited1, scraped := s.scraped,
         fetchLog := s.fetchLog ++ [(url, depth)] }, [])

/-- Running one level's units in task order (the linearisation of the
`asyncio.gather` barrier), accumulating every unit's returned children
into `next_level_urls`. -/
def ascrapeTasks (fetch : String → Option Soup) (classify : String → String)
    (pickFn : List String → String) (initial_url : String)
    (s : CrawlState) (acc : List WorkItem) :
    List WorkItem → CrawlState × List WorkItem
  | [] => (s, acc)
  | it :: rest =>
    let step := ascrapeUnit fetch classify pickFn initial_url s it
    ascrapeTasks fetch classify pickFn initial_url step.1 (acc ++ step.2) rest

/-- One iteration of `ascrape`'s depth loop: select the pending items at
exactly `current_depth`, create a unit for each whose URL is not yet
visited, run the units, and extend the work list with all returned
children. -/
def ascrapeLevel (fetch : String → Option Soup) (classify : String → String)
    (pickFn : List String → String) (initial_url : String)
    (s : CrawlState) (worklist : List WorkItem) (current_depth : Nat) :
    CrawlState × List WorkItem :=
  let current_level_urls := worklist.filter (fun it => it.2.2 == current_depth)
  if current_level_urls.isEmpty then (s, worklist)
  else
    let tasks := current_level_urls.filter (fun it => !(s.visited.contains it.1))
    let folded := ascrapeTasks fetch classify pickFn initial_url s [] tasks
    (folded.1, worklist ++ folded.2)

/-- The `for current_depth in range(max_depth + 1)` loop of
`WebScraper.ascrape`. -/
def ascrapeLoop (fetch : String → Option Soup) (classify : String → String)
    (pickFn : List String → String) (initial_url : String) (max_depth : Nat)
    (s : CrawlState) (worklist : List WorkItem) : CrawlState × List WorkItem :=
  (List.range (max_depth + 1)).foldl
    (fun acc d => ascrapeLevel fetch classify pickFn initial_url acc.1 acc.2 d)
    (s, worklist)

/-- `WebScraper.ascrape`: the same validation and recovery as `scrape`,
then the level-synchronous loop. -/
def ascrape (fetch : String → Option Soup) (classify : String → String)
    (pickFn : List String → String) (start_fresh : Bool) (db : Db)
    (initial_url : String) (max_depth : Int) : Option String × CrawlState :=
  if max_depth < 0 then
    (some "Max depth must be >= 0", ⟨db, [], [], []⟩)
  else if !(is_valid_url initial_url) then
    (some ("Invalid initial URL: " ++ initial_url), ⟨db, [], [], []⟩)
  else
    match recover_previous_state db start_fresh initial_url with
    | .error e => (some e, ⟨db, [], [], []⟩)
    | .ok urls_to_process =>
      (none, (ascrapeLoop fetch classify pickFn initial_url max_depth.toNat
        ⟨db, [], [], []⟩ urls_to_process).1)

/-! ## Exception flow of a concurrent unit
`_scrape_url_concurrent` wraps part of its body in `try/except`:
the `try` begins only after `_insert_to_db_as_queued`, covers the delay,
the fetch (which itself catches all exceptions and returns `None`), the
classification, the completed-record write and, in the no-content branch,
the `update_status` call; the `except Exception` handler calls
`update_status` and returns `[]`.  The model below abstracts each
fallible call by its outcome (`Except` value) and reproduces the control
flow exactly; `gather_extend` models the level barrier of `ascrape` —
`asyncio.gather(..., return_exceptions=True)` followed by
`next_level_urls.extend(result)` for every result, where extending a
captured exception object raises a `TypeError`. -/

/-- Exception-flow model of `_scrape_url_concurrent` for a unit that
passed the visited test-and-set: `.error` is an uncaught exception
escaping the unit, `.ok` the returned child-URL list. -/
def scrape_url_concurrent_exc (url : String) (enqueueRes : Except String Unit)
    (fetchRes : Option Soup) (classifyRes : Except String String)
    (completeRes markEmptyRes : Except String Unit) : Except String (List String) :=
  match enqueueRes with
  | .error e => .error e
  | .ok _ =>
    let tryBody : Except String (List String) :=
      match fetchRes with
      | some soup =>
        (match classifyRes with
         | .error e => .error e
         | .ok _ =>
           match completeRes with
           | .error e => .error e
           | .ok _ => .ok ((extract_links_with_text soup url).map Prod.fst))
      | none =>
        (match markEmptyRes with
         | .error e => .error e
         | .ok _ => .ok [])
    match tryBody with
    | .ok r => .ok r
    | .error _ =>
      match markEmptyRes with
      | .error e => .error e
      | .ok _ => .ok []

/-- The collection loop over the `gather` results: each unit's value is
appended to `next_level_urls`; running `extend` on a captured exception
object raises a `TypeError`, aborting the loop. -/
def extendLoop (acc : List String) :
    List (Except String (List String)) → Except String (List String)
  | [] => .ok acc
  | .ok l :: rs => extendLoop (acc ++ l) rs
  | .error _ :: _ => .error "TypeError"

/-- The level barrier of `ascrape`: `asyncio.gather(...,
return_exceptions=True)` returns each unit's value or its escaped
exception, and the collection loop starts from an empty `next_level_urls`
and extends it with every result in order. -/
def gather_extend (results : List (Except String (List String))) :
    Except String (List String) :=
  extendLoop [] results

/-! ## Store lemmas -/

/-- `findRecord` on a cons cell. -/
theorem findRecord_cons (r : ScrapedUrl) (rs : Db) (b u : String) :
    findRecord (r :: rs) b u =
      if r.base_url == b && r.url == u then some r else findRecord rs b u := by
  simp only [findRecord, List.find?]
  cases h : r.base_url == b && r.url == u <;> simp [h]

/-- A record key `(b, u)` never matches a lookup for a different key. -/
theorem keyTest_false {b u b' u' : String} (h : ¬(b' = b ∧ u' = u)) :
    (b == b' && u == u') = false := by
  rcases Decidable.em (b = b') with h1 | h1
  · rcases Decidable.em (u = u') with h2 | h2
    · exact absurd ⟨h1.symm, h2.symm⟩ h
    · simp [h2]
  · simp [h1]

/-- After an upsert, the upserted key holds exactly the upserted fields. -/
theorem findRecord_upsert_self (db : Db) (b u : String) (src : Option String)
    (d : Nat) (t : Option String) (l : List (String × String)) (st : UrlStatus)
    (tp : String) :
    findRecord (upsert_scraped_url db b u src d t l st tp) b u =
      some ⟨b, u, src, d, t, l, tp, st⟩ := by
  induction db with
  | nil => simp [upsert_scraped_url, findRecord, List.find?]
  | cons r rs ih =>
    by_cases hr : (r.base_url == b && r.url == u) = true
    · obtain ⟨h1, h2⟩ : r.base_url = b ∧ r.url = u := by simpa using hr
      simp [upsert_scraped_url, hr, findRecord_cons, h1, h2]
    · simp [upsert_scraped_url, hr, findRecord_cons, ih]

/-- An upsert leaves every other key's record unchanged. -/
theorem findRecord_upsert_other (db : Db) (b u b' u' : String) (src : Option String)
    (d : Nat) (t : Option String) (l : List (String × String)) (st : UrlStatus)
    (tp : String) (h : ¬(b' = b ∧ u' = u)) :
    findRecord (upsert_scraped_url db b u src d t l st tp) b' u' = findRecord db b' u' := by
  induction db with
  | nil => simp [upsert_scraped_url, findRecord, List.find?, keyTest_false h]
  | cons r rs ih =>
    by_cases hr : (r.base_url == b && r.url == u) = true
    · obtain ⟨h1, h2⟩ : r.base_url = b ∧ r.url = u := by simpa using hr
      simp [upsert_scraped_url, hr, findRecord_cons, h1, h2, keyTest_false h]
    · simp [upsert_scraped_url, hr, findRecord_cons, ih]

/-- After `update_status`, the targeted key holds its previous record with
only the status replaced. -/
theorem findRecord_update_status_self (db : Db) (b u : String) (st : UrlStatus) :
    findRecord (update_status db b u st) b u =
      (findRecord db b u).map (fun r => { r with status := st }) := by
  induction db with
  | nil => simp [update_status, findRecord, List.find?]
  | cons r rs ih =>
    by_cases hr : (r.base_url == b && r.url == u) = true
    · simp [update_status, hr, findRecord_cons]
    · simp [update_status, hr, findRecord_cons, ih]

/-- `update_status` leaves every other key's record unchanged. -/
theorem findRecord_update_status_other (db : Db) (b u b' u' : String) (st : UrlStatus)
    (h : ¬(b' = b ∧ u' = u)) :
    findRecord (update_status db b u st) b' u' = findRecord db b' u' := by
  induction db with
  | nil => simp [update_status]
  | cons r rs ih =>
    by_cases hr : (r.base_url == b && r.url == u) = true
    · obtain ⟨h1, h2⟩ : r.base_url = b ∧ r.url = u := by simpa using hr
      simp [update_status, hr, findRecord_cons, h1, h2, keyTest_false h]
    · simp [update_status, hr, findRecord_cons, ih]

/-! ## Concrete scenario data -/

/-- A completed record of the crawl root `http://test.com`, as left by a
prior successful scrape of `http://test.com/a` at depth 1. -/
def recCompleted : ScrapedUrl :=
  ⟨"http://test.com", "http://test.com/a", some "http://test.com", 1, some "T",
   [("http://test.com/b", "B")], "news", .completed⟩

/-- A parsed page with a title and no anchors or paragraphs. -/
def emptySoup : Soup := ⟨[], some "A", []⟩

/-! ## Claims -/

/-- **C1, counterexample.**  The claim says no sequence of the store
operations ever takes a completed record back to queued; but a single
enqueue (`upsert_scraped_url` with `status='queued'`, as issued by
`_insert_to_db_as_queued` when a completed URL is rediscovered) overwrites
the status of the existing completed record with `queued`. -/
theorem enqueue_reverts_completed_to_queued :
    recCompleted.status = .completed ∧
    (findRecord (insert_to_db_as_queued [recCompleted] "http://test.com"
          "http://test.com/a" (some "http://test.com") 2)
        "http://test.com" "http://test.com/a").map ScrapedUrl.status =
      some .queued := by
  constructor <;> rfl

/-- **C1** (amended): the two completing operations — `update_status` to
`completed` (`markCompletedEmpty`) and `upsert_scraped_url` with
`status='completed'` (`completeWithContent`) — never take any record from
completed back to queued, on any key; only the enqueue operation can
revert a completed record, because its upsert overwrites the status
field. -/
theorem completing_ops_preserve_completed (db : Db) (b u b' u' : String)
    (src : Option String) (d : Nat) (t : Option String)
    (l : List (String × String)) (tp : String) (r : ScrapedUrl)
    (hr : findRecord db b u = some r) (hc : r.status = .completed) :
    ((findRecord (update_status db b' u' .completed) b u).map ScrapedUrl.status =
      some .completed) ∧
    ((findRecord (upsert_scraped_url db b' u' src d t l .completed tp) b u).map
      ScrapedUrl.status = some .completed) := by
  constructor
  · by_cases hk : b = b' ∧ u = u'
    · obtain ⟨hb, hu⟩ := hk
      subst hb; subst hu
      rw [findRecord_update_status_self, hr]
      rfl
    · rw [findRecord_update_status_other db b' u' b u _ hk, hr]
      simp [hc]
  · by_cases hk : b = b' ∧ u = u'
    · obtain ⟨hb, hu⟩ := hk
      subst hb; subst hu
      rw [findRecord_upsert_self]
      rfl
    · rw [findRecord_upsert_other db b' u' b u _ _ _ _ _ _ hk, hr]
      simp [hc]

/-- Witness for `completing_ops_preserve_completed` at a concrete store. -/
theorem completing_ops_preserve_completed_witness :
    (findRecord [recCompleted] "http://test.com" "http://test.com/a" =
        some recCompleted ∧ recCompleted.status = .completed) ∧
    ((findRecord (update_status [recCompleted] "http://test.com" "http://other.com"
          .completed) "http://test.com" "http://test.com/a").map ScrapedUrl.status =
        some .completed) ∧
    ((findRecord (upsert_scraped_url [recCompleted] "http://test.com" "http://other.com"
          none 0 none [] .completed "other") "http://test.com" "http://test.com/a").map
        ScrapedUrl.status = some .completed) :=
  ⟨⟨by rfl, by rfl⟩,
    (completing_ops_preserve_completed [recCompleted] "http://test.com" "http://test.com/a"
      "http://test.com" "http://other.com" none 0 none [] "other" recCompleted
      (by rfl) (by rfl)).1,
    (completing_ops_preserve_completed [recCompleted] "http://test.com" "http://test.com/a"
      "http://test.com" "http://other.com" none 0 none [] "other" recCompleted
      (by rfl) (by rfl)).2⟩

/-- **C4, counterexample.**  The claim says the stored depth keeps the
value written at the first enqueue; but re-enqueueing an existing record
with a different depth overwrites the stored depth (here 1 becomes 5). -/
theorem reenqueue_overwrites_depth :
    (findRecord [recCompleted] "http://test.com" "http://test.com/a").map
        ScrapedUrl.depth = some 1 ∧
    (findRecord (insert_to_db_as_queued [recCompleted] "http://test.com"
          "http://test.com/a" none 5) "http://test.com" "http://test.com/a").map
        ScrapedUrl.depth = some 5 := by
  constructor <;> rfl

/-- **C4** (amended): the depth of a record is overwritten by every upsert
— the stored depth after any upsert is the depth passed to that upsert
(last write wins), not the value of the first insertion. -/
theorem upsert_depth_last_write_wins (db : Db) (b u : String) (src : Option String)
    (d : Nat) (t : Option String) (l : List (String × String)) (st : UrlStatus)
    (tp : String) :
    (findRecord (upsert_scraped_url db b u src d t l st tp) b u).map
      ScrapedUrl.depth = some d := by
  rw [findRecord_upsert_self]
  rfl

/-- **C10.**  A completed-with-content write always stores `title` as a
string, never null: the trimmed `<title>` text, or the empty string when
the page has no `<title>` element. -/
theorem completed_record_title_is_string (db : Db) (initial_url url : String)
    (src : Option String) (depth : Nat) (soup : Soup)
    (links : List (String × String)) (topic : String) :
    ∃ r, findRecord (insert_completed_scrape_to_db db initial_url url src depth soup
          links topic) initial_url url = some r ∧
      r.status = .completed ∧ r.title = some (get_title soup) ∧ r.title ≠ none ∧
      (soup.titleText = none → r.title = some "") ∧
      (∀ t, soup.titleText = some t → r.title = some (pyStrip t)) := by
  refine ⟨⟨initial_url, url, src, depth, some (get_title soup), links, topic, .completed⟩,
    findRecord_upsert_self db initial_url url src depth (some (get_title soup)) links
      .completed topic, rfl, rfl, by simp, ?_, ?_⟩
  · intro h
    simp [get_title, h]
  · intro t ht
    simp [get_title, ht]

/-- **C9.**  A call with `max_depth < 0` or an invalid seed URL fails
synchronously in `_validate_input`, for both orchestrators: an error is
raised, the store contents are returned unchanged, and the fetch log is
empty. -/
theorem invalid_input_fails_fast (fetch : String → Option Soup)
    (classify : String → String) (pickFn : List String → String)
    (start_fresh : Bool) (db : Db) (initial_url : String) (max_depth : Int)
    (fuel : Nat) (h : max_depth < 0 ∨ is_valid_url initial_url = false) :
    ((scrape fetch classify start_fresh db initial_url max_depth fuel).1.isSome = true ∧
      (scrape fetch classify start_fresh db initial_url max_depth fuel).2 =
        ⟨db, [], [], []⟩) ∧
    ((ascrape fetch classify pickFn start_fresh db initial_url max_depth).1.isSome = true ∧
      (ascrape fetch classify pickFn start_fresh db initial_url max_depth).2 =
        ⟨db, [], [], []⟩) := by
  by_cases hd : max_depth < 0
  · simp [scrape, ascrape, hd]
  · rcases h with h | h
    · exact absurd h hd
    · simp [scrape, ascrape, hd, h]

/-- Witness for `invalid_input_fails_fast` at `max_depth = -1`. -/
theorem invalid_input_fails_fast_witness :
    ((-1 : Int) < 0 ∨ is_valid_url "http://test.com" = false) ∧
    ((scrape (fun _ => none) (fun _ => "other") true [] "http://test.com" (-1) 0).1.isSome =
        true ∧
      (scrape (fun _ => none) (fun _ => "other") true [] "http://test.com" (-1) 0).2 =
        ⟨[], [], [], []⟩) ∧
    ((ascrape (fun _ => none) (fun _ => "other") (fun _ => "") true [] "http://test.com"
          (-1)).1.isSome = true ∧
      (ascrape (fun _ => none) (fun _ => "other") (fun _ => "") true [] "http://test.com"
          (-1)).2 = ⟨[], [], [], []⟩) :=
  ⟨Or.inl (by decide),
    invalid_input_fails_fast (fun _ => none) (fun _ => "other") (fun _ => "") true []
      "http://test.com" (-1) 0 (Or.inl (by decide))⟩

/-- Running the extend loop over results that are all values never
raises. -/
theorem extendLoop_ok (results : List (Except String (List String)))
    (hres : ∀ r ∈ results, ∃ l, r = .ok l) :
    ∀ acc : List String, ∃ ls, extendLoop acc results = .ok ls := by
  induction results with
  | nil => exact fun acc => ⟨acc, rfl⟩
  | cons r rs ih =>
    intro acc
    obtain ⟨l, hl⟩ := hres r (by simp)
    subst hl
    exact ih (fun x hx => hres x (by simp [hx])) (acc ++ l)

/-- **C3, counterexample.**  The claim says any exception raised inside a
concurrent unit is caught at the unit boundary and that the level barrier
still completes; but the `try` block of `_scrape_url_concurrent` begins
only after `_insert_to_db_as_queued`, so a store exception raised by the
enqueue escapes the unit, and the level's child-accumulation loop
(`next_level_urls.extend(result)` over the `gather` results) then raises a
`TypeError` on the captured exception object, aborting the barrier. -/
theorem enqueue_exception_escapes_unit :
    scrape_url_concurrent_exc "http://x.com" (.error "OperationalError")
        (some emptySoup) (.ok "other") (.ok ()) (.ok ()) =
      .error "OperationalError" ∧
    gather_extend [.ok ["http://c.com"],
      scrape_url_concurrent_exc "http://x.com" (.error "OperationalError")
        (some emptySoup) (.ok "other") (.ok ()) (.ok ())] = .error "TypeError" := by
  constructor <;> rfl

/-- **C3** (amended): any exception raised inside the unit's `try` block —
classification, the completed-record write, or the fetch's absent-page
outcome — is caught at the unit boundary and, provided the
mark-completed-empty write itself succeeds, converted into the
no-children outcome, and a level barrier whose units all returned values
completes normally; only an exception in the enqueue step (which precedes
the `try`) escapes the unit. -/
theorem unit_exceptions_after_enqueue_isolated (url : String)
    (fetchRes : Option Soup) (classifyRes : Except String String)
    (completeRes : Except String Unit)
    (results : List (Except String (List String)))
    (hres : ∀ r ∈ results, ∃ l, r = .ok l) :
    (∃ cs, scrape_url_concurrent_exc url (.ok ()) fetchRes classifyRes completeRes
        (.ok ()) = .ok cs) ∧
    (((∃ e, classifyRes = .error e) ∨ (∃ e, completeRes = .error e) ∨ fetchRes = none) →
      scrape_url_concurrent_exc url (.ok ()) fetchRes classifyRes completeRes
        (.ok ()) = .ok []) ∧
    (∃ ls, gather_extend results = .ok ls) := by
  refine ⟨?_, ?_, extendLoop_ok results hres []⟩
  · cases fetchRes with
    | none => exact ⟨[], rfl⟩
    | some soup =>
      cases classifyRes with
      | error e => exact ⟨[], rfl⟩
      | ok s =>
        cases completeRes with
        | error e => exact ⟨[], rfl⟩
        | ok uu => exact ⟨_, rfl⟩
  · intro h
    cases fetchRes with
    | none => rfl
    | some soup =>
      cases classifyRes with
      | error e => rfl
      | ok s =>
        cases completeRes with
        | error e => rfl
        | ok uu =>
          rcases h with ⟨e, he⟩ | ⟨e, he⟩ | hf
          · exact absurd he (by simp)
          · exact absurd he (by simp)
          · exact absurd hf (by simp)

/-- Witness for `unit_exceptions_after_enqueue_isolated`: a classification
exception with a successful enqueue and empty-mark. -/
theorem unit_exceptions_after_enqueue_isolated_witness :
    (∃ cs, scrape_url_concurrent_exc "http://x.com" (.ok ()) (some emptySoup)
        (.error "boom") (.ok ()) (.ok ()) = .ok cs) ∧
    (((∃ e, (Except.error "boom" : Except String String) = .error e) ∨
        (∃ e, (Except.ok () : Except String Unit) = .error e) ∨
        (some emptySoup = none)) →
      scrape_url_concurrent_exc "http://x.com" (.ok ()) (some emptySoup)
        (.error "boom") (.ok ()) (.ok ()) = .ok []) ∧
    (∃ ls, gather_extend [.ok ["http://c.com"]] = .ok ls) :=
  unit_exceptions_after_enqueue_isolated "http://x.com" (some emptySoup)
    (.error "boom") (.ok ()) [.ok ["http://c.com"]]
    (fun r hr => by
      simp only [List.mem_singleton] at hr
      exact ⟨["http://c.com"], hr⟩)

/-! ## The concurrent failure path keys the store write wrongly (C2) -/

/-- The crawl-root page of the C2 scenario: it links to
`http://test.com/a` (which fetches fine) and `http://x.com`
(whose fetch fails). -/
def soupRootC2 : Soup :=
  ⟨[⟨"http://test.com/a", "A", none⟩, ⟨"http://x.com", "X", none⟩], some "Root", []⟩

/-- The C2 fetch oracle. -/
def fetchC2 : String → Option Soup := fun u =>
  if u == "http://test.com" then some soupRootC2
  else if u == "http://test.com/a" then some emptySoup
  else none

/-- A possible outcome of `self.visited_urls.__iter__().__next__()`:
Python set iteration yields an arbitrary element, here
`http://test.com/a` whenever it is in the set. -/
def pickVisitedA : List String → String := fun v =>
  if v.contains "http://test.com/a" then "http://test.com/a" else "http://test.com"

/-- The final state of the C2 concurrent crawl
(root `http://test.com`, `max_depth = 1`, fresh store). -/
def c2Final : CrawlState :=
  (ascrape fetchC2 (fun _ => "other") pickVisitedA true [] "http://test.com" 1).2

/-- **C2, failing run.**  The fetch of `http://x.com` is attempted and
fails, `http://test.com/a` is in the visited set (so the set iterator may
legitimately yield it), and the record keyed by the crawl root and
`http://x.com` ends with status `queued` — not `completed` as the claim
requires — because `_scrape_url_concurrent` passed that arbitrary visited
element, not the crawl root, as `base_url` to `update_status`, which then
found no matching row and silently did nothing.  On resume the URL would
be fetched again. -/
theorem concurrent_failure_marks_wrong_key :
    ("http://x.com", 1) ∈ c2Final.fetchLog ∧
    fetchC2 "http://x.com" = none ∧
    "http://test.com/a" ∈ c2Final.visited ∧
    (findRecord c2Final.db "http://test.com" "http://x.com").map ScrapedUrl.status =
      some .queued := by
  refine ⟨by decide, by rfl, by decide, by rfl⟩

/-! ## Link extraction provenance -/

/-- Provenance of one extracted pair: some anchor of the list passes the
skip test on its stripped href, resolves to the pair's key, the key is a
valid absolute URL, and the anchor's fallback chain yields the pair's
text. -/
def PairFromAnchor (base_url : String) (anchors : List AnchorTag)
    (p : String × String) : Prop :=
  ∃ a, a ∈ anchors ∧ skipHref (pyStrip a.href) = false ∧
    p.1 = urljoin base_url (pyStrip a.href) ∧ is_valid_url p.1 = true ∧
    p.2 = linkTextOf a p.1

/-- A member of `dictInsert d k v` is the inserted pair or a pair of
`d`. -/
theorem mem_dictInsert (d : List (String × String)) (k v : String)
    (q : String × String) (hq : q ∈ dictInsert d k v) : q = (k, v) ∨ q ∈ d := by
  unfold dictInsert at hq
  by_cases h : d.any (fun p => p.1 == k) = true
  · rw [if_pos h] at hq
    obtain ⟨p, hp, hpq⟩ := List.mem_map.mp hq
    by_cases hk : (p.1 == k) = true
    · left
      rw [← hpq]
      simp [hk]
    · right
      rw [← hpq]
      simpa [hk] using hp
  · rw [if_neg h] at hq
    rcases List.mem_append.mp hq with h1 | h1
    · right; exact h1
    · left; simpa using h1

/-- Every pair produced by folding the anchor loop comes from the starting
accumulator or from one of the folded anchors. -/
theorem extract_links_from_anchor (base_url : String) (anchors : List AnchorTag) :
    ∀ (l : List AnchorTag) (acc : List (String × String)),
      (∀ a ∈ l, a ∈ anchors) →
      (∀ p ∈ acc, PairFromAnchor base_url anchors p) →
      ∀ p ∈ l.foldl (extractLinksStep base_url) acc, PairFromAnchor base_url anchors p := by
  intro l
  induction l with
  | nil => exact fun acc _ hacc p hp => hacc p hp
  | cons a as ih =>
    intro acc hl hacc p hp
    refine ih (extractLinksStep base_url acc a) (fun x hx => hl x (by simp [hx])) ?_ p hp
    intro q hq
    simp only [extractLinksStep] at hq
    by_cases hskip : skipHref (pyStrip a.href) = true
    · rw [if_pos hskip] at hq
      exact hacc q hq
    · rw [if_neg hskip] at hq
      by_cases hvalid : is_valid_url (urljoin base_url (pyStrip a.href)) = true
      · rw [if_pos hvalid] at hq
        rcases mem_dictInsert _ _ _ _ hq with rfl | hmem
        · exact ⟨a, hl a (by simp), by simpa using hskip, rfl, hvalid, rfl⟩
        · exact hacc q hmem
      · rw [if_neg hvalid] at hq
        exact hacc q hq

/-- The in-place update of `dictInsert` never changes a pair's key. -/
theorem fst_dictInsert_update (k v : String) (p : String × String) :
    (if p.1 == k then (k, v) else p).1 = p.1 := by
  by_cases h : (p.1 == k) = true
  · rw [if_pos h]
    have hk : p.1 = k := by simpa using h
    exact hk.symm
  · rw [if_neg h]

/-- `dictInsert` preserves every existing key. -/
theorem keys_dictInsert_of_mem (d : List (String × String)) (k v k' : String)
    (h : k' ∈ d.map Prod.fst) : k' ∈ (dictInsert d k v).map Prod.fst := by
  unfold dictInsert
  by_cases hany : d.any (fun p => p.1 == k) = true
  · rw [if_pos hany]
    obtain ⟨p, hp, hpk⟩ := List.mem_map.mp h
    refine List.mem_map.mpr ⟨_, List.mem_map_of_mem _ hp, ?_⟩
    rw [fst_dictInsert_update]
    exact hpk
  · rw [if_neg hany, List.map_append]
    exact List.mem_append_left _ h

/-- The inserted key is a key of `dictInsert d k v`. -/
theorem key_mem_dictInsert (d : List (String × String)) (k v : String) :
    k ∈ (dictInsert d k v).map Prod.fst := by
  unfold dictInsert
  by_cases hany : d.any (fun p => p.1 == k) = true
  · obtain ⟨p, hp, hpk⟩ := List.any_eq_true.mp hany
    rw [if_pos hany]
    refine List.mem_map.mpr ⟨_, List.mem_map_of_mem _ hp, ?_⟩
    rw [fst_dictInsert_update]
    simpa using hpk
  · rw [if_neg hany, List.map_append]
    exact List.mem_append_right _ (by simp)

/-- One pass of the anchor loop preserves every existing key. -/
theorem extractLinksStep_keeps_keys (base_url : String)
    (acc : List (String × String)) (a : AnchorTag) (k' : String)
    (h : k' ∈ acc.map Prod.fst) :
    k' ∈ (extractLinksStep base_url acc a).map Prod.fst := by
  simp only [extractLinksStep]
  by_cases hskip : skipHref (pyStrip a.href) = true
  · rw [if_pos hskip]; exact h
  · rw [if_neg hskip]
    by_cases hvalid : is_valid_url (urljoin base_url (pyStrip a.href)) = true
    · rw [if_pos hvalid]
      exact keys_dictInsert_of_mem _ _ _ _ h
    · rw [if_neg hvalid]; exact h

/-- Folding the anchor loop preserves every existing key. -/
theorem extract_links_foldl_keeps_keys (base_url : String) :
    ∀ (l : List AnchorTag) (acc : List (String × String)) (k' : String),
      k' ∈ acc.map Prod.fst →
      k' ∈ (l.foldl (extractLinksStep base_url) acc).map Prod.fst := by
  intro l
  induction l with
  | nil => exact fun acc k' h => h
  | cons a as ih =>
    intro acc k' h
    exact ih (extractLinksStep base_url acc a) k'
      (extractLinksStep_keeps_keys base_url acc a k' h)

/-- Every non-skipped anchor whose resolved URL is valid contributes its
resolved URL as a key of the extracted mapping. -/
theorem extract_links_key_present (soup : Soup) (base_url : String) (a : AnchorTag)
    (ha : a ∈ soup.anchors) (hskip : skipHref (pyStrip a.href) = false)
    (hvalid : is_valid_url (urljoin base_url (pyStrip a.href)) = true) :
    urljoin base_url (pyStrip a.href) ∈
      (extract_links_with_text soup base_url).map Prod.fst := by
  obtain ⟨l1, l2, hsplit⟩ := List.append_of_mem ha
  unfold extract_links_with_text
  rw [hsplit, List.foldl_append, List.foldl_cons]
  apply extract_links_foldl_keeps_keys
  simp only [extractLinksStep]
  rw [if_neg (by simp [hskip]), if_pos hvalid]
  exact key_mem_dictInsert _ _ _

/-- The page of the link-resolution scenario: anchors with hrefs
`/about`, `#`, `javascript:void(0)` and `mailto:a@b.com`. -/
def demoSoup : Soup :=
  ⟨[⟨"/about", "About", none⟩, ⟨"#", "x", none⟩, ⟨"javascript:void(0)", "y", none⟩,
    ⟨"mailto:a@b.com", "z", none⟩], none, []⟩

/-- **C7.**  (i) Every pair of the extracted mapping comes from an anchor
whose stripped href is non-empty and does not begin with `#`,
`javascript:` or `mailto:`, resolved against the page URL, and is a valid
absolute URL (scheme and netloc both present); (ii) every non-skipped
anchor whose resolved href is valid contributes its resolved URL as a
key; (iii) concretely, on a page fetched from `http://test.com` the hrefs
`/about`, `#`, `javascript:void(0)`, `mailto:a@b.com` yield exactly the
mapping `http://test.com/about ↦ About`. -/
theorem link_extraction_skip_resolve_filter :
    (∀ (soup : Soup) (base_url : String) (p : String × String),
      p ∈ extract_links_with_text soup base_url →
      ∃ a, a ∈ soup.anchors ∧ skipHref (pyStrip a.href) = false ∧
        p.1 = urljoin base_url (pyStrip a.href) ∧ is_valid_url p.1 = true) ∧
    (∀ (soup : Soup) (base_url : String) (a : AnchorTag), a ∈ soup.anchors →
      skipHref (pyStrip a.href) = false →
      is_valid_url (urljoin base_url (pyStrip a.href)) = true →
      urljoin base_url (pyStrip a.href) ∈
        (extract_links_with_text soup base_url).map Prod.fst) ∧
    extract_links_with_text demoSoup "http://test.com" =
      [("http://test.com/about", "About")] := by
  refine ⟨?_, ?_, by rfl⟩
  · intro soup base_url p hp
    obtain ⟨a, ha, hskip, hk, hv, _⟩ :=
      extract_links_from_anchor base_url soup.anchors soup.anchors []
        (fun a ha => ha) (fun p hp => absurd hp (List.not_mem_nil p)) p hp
    exact ⟨a, ha, hskip, hk, hv⟩
  · exact fun soup base_url a => extract_links_key_present soup base_url a

/-- Witness for `link_extraction_skip_resolve_filter`'s quantified parts
at the concrete page. -/
theorem link_extraction_skip_resolve_filter_witness :
    ( ("http://test.com/about", "About") ∈ extract_links_with_text demoSoup "http://test.com" →
      ∃ a, a ∈ demoSoup.anchors ∧ skipHref (pyStrip a.href) = false ∧
        ("http://test.com/about", "About").1 = urljoin "http://test.com" (pyStrip a.href) ∧
        is_valid_url ("http://test.com/about", "About").1 = true) ∧
    extract_links_with_text demoSoup "http://test.com" =
      [("http://test.com/about", "About")] :=
  ⟨fun hp => link_extraction_skip_resolve_filter.1 demoSoup "http://test.com"
      ("http://test.com/about", "About") hp,
    link_extraction_skip_resolve_filter.2.2⟩

/-- A page with one anchor that has no visible text but a contained image
with `alt="Logo"`. -/
def soupLogoAlt : Soup := ⟨[⟨"/x", "", some ⟨some "Logo"⟩⟩], none, []⟩

/-- A page with one anchor that has neither text nor a contained image. -/
def soupNoTextNoAlt : Soup := ⟨[⟨"/x", "", none⟩], none, []⟩

/-- A page with one anchor that has no visible text and a contained image
whose `alt` is a single space. -/
def soupSpaceAlt : Soup := ⟨[⟨"/x", "", some ⟨some " "⟩⟩], none, []⟩

/-- **C8, counterexample.**  The claim says that when the anchor text and
the trimmed alt text are both empty the link text falls back to the
absolute URL; but for an anchor with no text and `alt=" "` the code tests
the alt for truthiness before stripping, so the stored link text is the
stripped alt `""` — empty, not the absolute URL. -/
theorem whitespace_alt_gives_empty_text :
    extract_links_with_text soupSpaceAlt "http://t.com" = [("http://t.com/x", "")] ∧
    ("" : String) ≠ "http://t.com/x" := by
  exact ⟨by rfl, by decide⟩

/-- **C8** (amended): every extracted pair's text is computed by the
fallback chain of `_extract_links_with_text`: the anchor's stripped
visible text when non-empty; otherwise, when the anchor contains an image
whose `alt` attribute is present and non-empty — the truthiness test
precedes stripping, so a whitespace-only alt yields empty link text — the
stripped alt; the absolute URL itself only when there is no contained
image or its alt is absent or the empty string.  Concretely, an anchor
with no text containing `<img alt="Logo">` yields `"Logo"`, and one with
neither text nor alt yields its own absolute URL. -/
theorem link_text_fallback_chain :
    (∀ (soup : Soup) (base_url : String) (p : String × String),
      p ∈ extract_links_with_text soup base_url →
      ∃ a, a ∈ soup.anchors ∧ p.2 = linkTextOf a p.1) ∧
    (∀ (a : AnchorTag) (absolute_url : String), a.text ≠ "" →
      linkTextOf a absolute_url = a.text) ∧
    (∀ (a : AnchorTag) (alt absolute_url : String), a.text = "" →
      a.img = some ⟨some alt⟩ → alt ≠ "" → linkTextOf a absolute_url = pyStrip alt) ∧
    (∀ (a : AnchorTag) (absolute_url : String), a.text = "" →
      (a.img = none ∨ a.img = some ⟨none⟩ ∨ a.img = some ⟨some ""⟩) →
      linkTextOf a absolute_url = absolute_url) ∧
    extract_links_with_text soupLogoAlt "http://t.com" = [("http://t.com/x", "Logo")] ∧
    extract_links_with_text soupNoTextNoAlt "http://t.com" =
      [("http://t.com/x", "http://t.com/x")] := by
  refine ⟨?_, ?_, ?_, ?_, by rfl, by rfl⟩
  · intro soup base_url p hp
    obtain ⟨a, ha, _, _, _, ht⟩ :=
      extract_links_from_anchor base_url soup.anchors soup.anchors []
        (fun a ha => ha) (fun p hp => absurd hp (List.not_mem_nil p)) p hp
    exact ⟨a, ha, ht⟩
  · intro a absolute_url h
    simp [linkTextOf, h]
  · intro a alt absolute_url ht himg halt
    simp [linkTextOf, ht, himg, halt]
  · intro a absolute_url ht himg
    rcases himg with h | h | h <;> simp [linkTextOf, ht, h]

/-- Witness for `link_text_fallback_chain`'s quantified parts at the
`Logo` page. -/
theorem link_text_fallback_chain_witness :
    ( ("http://t.com/x", "Logo") ∈ extract_links_with_text soupLogoAlt "http://t.com" →
      ∃ a, a ∈ soupLogoAlt.anchors ∧
        ("http://t.com/x", "Logo").2 = linkTextOf a ("http://t.com/x", "Logo").1) ∧
    extract_links_with_text soupLogoAlt "http://t.com" = [("http://t.com/x", "Logo")] :=
  ⟨fun hp => link_text_fallback_chain.1 soupLogoAlt "http://t.com"
      ("http://t.com/x", "Logo") hp,
    link_text_fallback_chain.2.2.2.2.1⟩

/-! ## Fetch provenance of the sequential loop (C5) -/

/-- The loop is the identity on an empty work list. -/
theorem scrapeLoop_nil (fetch : String → Option Soup) (classify : String → String)
    (initial_url : String) (max_depth fuel : Nat) (s : CrawlState) :
    scrapeLoop fetch classify initial_url max_depth fuel s [] = s := by
  cases fuel <;> rfl

/-- The loop is the identity when out of fuel. -/
theorem scrapeLoop_zero (fetch : String → Option Soup) (classify : String → String)
    (initial_url : String) (max_depth : Nat) (s : CrawlState) (wl : List WorkItem) :
    scrapeLoop fetch classify initial_url max_depth 0 s wl = s := by
  cases wl <;> rfl

/-- The loop unfolds one step on a non-empty work list. -/
theorem scrapeLoop_cons (fetch : String → Option Soup) (classify : String → String)
    (initial_url : String) (max_depth fuel : Nat) (s : CrawlState) (it : WorkItem)
    (rest : List WorkItem) :
    scrapeLoop fetch classify initial_url max_depth (fuel + 1) s (it :: rest) =
      scrapeLoop fetch classify initial_url max_depth fuel
        (scrapeStep fetch classify initial_url max_depth s it).1
        (rest ++ (scrapeStep fetch classify initial_url max_depth s it).2) := rfl

/-- URL `u` occurs as a link key on some already-visited, successfully
fetched page. -/
def DiscoveredFrom (fetch : String → Option Soup) (visited : List String)
    (u : String) : Prop :=
  ∃ v soup, v ∈ visited ∧ fetch v = some soup ∧
    u ∈ (extract_links_with_text soup v).map Prod.fst

/-- `DiscoveredFrom` is monotone in the visited set. -/
theorem DiscoveredFrom_mono (fetch : String → Option Soup)
    (v1 v2 : List String) (h : ∀ x ∈ v1, x ∈ v2) (u : String)
    (hd : DiscoveredFrom fetch v1 u) : DiscoveredFrom fetch v2 u := by
  obtain ⟨v, soup, hv, hf, hu⟩ := hd
  exact ⟨v, soup, h v hv, hf, hu⟩

/-- Effect of one sequential step on visited set, fetch log and emitted
children: visited grows, each new log entry is the processed item's URL,
and every emitted child is a link key of the page fetched for the
processed item — which is visited in the new state. -/
theorem scrapeStep_spec (fetch : String → Option Soup) (classify : String → String)
    (initial_url : String) (max_depth : Nat) (s : CrawlState) (it : WorkItem) :
    (∀ v ∈ s.visited, v ∈ (scrapeStep fetch classify initial_url max_depth s it).1.visited) ∧
    (∀ p ∈ (scrapeStep fetch classify initial_url max_depth s it).1.fetchLog,
      p ∈ s.fetchLog ∨ p.1 = it.1) ∧
    (∀ c ∈ (scrapeStep fetch classify initial_url max_depth s it).2,
      ∃ soup, fetch it.1 = some soup ∧
        it.1 ∈ (scrapeStep fetch classify initial_url max_depth s it).1.visited ∧
        c.1 ∈ (extract_links_with_text soup it.1).map Prod.fst) := by
  obtain ⟨url, src, depth⟩ := it
  simp only [scrapeStep]
  by_cases hg : s.visited.contains url ∨ depth > max_depth
  · rw [if_pos hg]
    exact ⟨fun v hv => hv, fun p hp => Or.inl hp, fun c hc => absurd hc (List.not_mem_nil c)⟩
  · rw [if_neg hg]
    cases hf : fetch url with
    | some soup =>
      dsimp only
      refine ⟨fun v hv => by simp [hv], ?_, ?_⟩
      · intro p hp
        rcases List.mem_append.mp hp with h | h
        · exact Or.inl h
        · right
          simpa using congrArg Prod.fst (List.mem_singleton.mp h)
      · intro c hc
        by_cases hd : depth < max_depth
        · rw [if_pos hd] at hc
          obtain ⟨l, hl, hlc⟩ := List.mem_map.mp hc
          refine ⟨soup, rfl, by simp, ?_⟩
          rw [← hlc]
          exact (List.mem_filter.mp hl).1
        · rw [if_neg hd] at hc
          exact absurd hc (List.not_mem_nil c)
    | none =>
      dsimp only
      refine ⟨fun v hv => by simp [hv], ?_, fun c hc => absurd hc (List.not_mem_nil c)⟩
      intro p hp
      rcases List.mem_append.mp hp with h | h
      · exact Or.inl h
      · right
        simpa using congrArg Prod.fst (List.mem_singleton.mp h)

/-- Visited sets only grow along the loop. -/
theorem scrapeLoop_visited_mono (fetch : String → Option Soup)
    (classify : String → String) (initial_url : String) (max_depth : Nat) :
    ∀ (fuel : Nat) (s : CrawlState) (wl : List WorkItem) (v : String),
      v ∈ s.visited →
      v ∈ (scrapeLoop fetch classify initial_url max_depth fuel s wl).visited := by
  intro fuel
  induction fuel with
  | zero =>
    intro s wl v hv
    rw [scrapeLoop_zero]
    exact hv
  | succ n ih =>
    intro s wl v hv
    cases wl with
    | nil =>
      rw [scrapeLoop_nil]
      exact hv
    | cons it rest =>
      rw [scrapeLoop_cons]
      exact ih _ _ v ((scrapeStep_spec fetch classify initial_url max_depth s it).1 v hv)

/-- Main provenance invariant: if every pending URL and every logged fetch
is an initial URL or was discovered on a visited page, the same holds of
the final fetch log, with respect to the final visited set. -/
theorem scrapeLoop_fetch_origin (fetch : String → Option Soup)
    (classify : String → String) (initial_url : String) (max_depth : Nat)
    (initUrls : List String) :
    ∀ (fuel : Nat) (s : CrawlState) (wl : List WorkItem),
      (∀ it ∈ wl, it.1 ∈ initUrls ∨ DiscoveredFrom fetch s.visited it.1) →
      (∀ p ∈ s.fetchLog, p.1 ∈ initUrls ∨ DiscoveredFrom fetch s.visited p.1) →
      ∀ p ∈ (scrapeLoop fetch classify initial_url max_depth fuel s wl).fetchLog,
        p.1 ∈ initUrls ∨
          DiscoveredFrom fetch
            (scrapeLoop fetch classify initial_url max_depth fuel s wl).visited p.1 := by
  intro fuel
  induction fuel with
  | zero =>
    intro s wl _ hlog p hp
    rw [scrapeLoop_zero] at hp ⊢
    exact hlog p hp
  | succ n ih =>
    intro s wl hwl hlog p hp
    cases wl with
    | nil =>
      rw [scrapeLoop_nil] at hp ⊢
      exact hlog p hp
    | cons it rest =>
      rw [scrapeLoop_cons] at hp ⊢
      obtain ⟨hvis, hlog1, hchild⟩ :=
        scrapeStep_spec fetch classify initial_url max_depth s it
      refine ih _ _ ?_ ?_ p hp
      · intro it' hit'
        rcases List.mem_append.mp hit' with h | h
        · rcases hwl it' (by simp [h]) with h1 | h1
          · exact Or.inl h1
          · exact Or.inr (DiscoveredFrom_mono fetch _ _ hvis _ h1)
        · obtain ⟨soup, hf, hmem, hkey⟩ := hchild it' h
          exact Or.inr ⟨it.1, soup, hmem, hf, hkey⟩
      · intro q hq
        rcases hlog1 q hq with h | h
        · rcases hlog q h with h1 | h1
          · exact Or.inl h1
          · exact Or.inr (DiscoveredFrom_mono fetch _ _ hvis _ h1)
        · rcases hwl it (by simp) with h1 | h1
          · exact Or.inl (h ▸ h1)
          · exact Or.inr (h ▸ DiscoveredFrom_mono fetch _ _ hvis _ h1)

/-- Recovery with `start_fresh=false` unfolds to the case split on the
queued rows. -/
theorem recover_previous_state_false (db : Db) (initial_url : String) :
    recover_previous_state db false initial_url =
      match get_queued_urls db initial_url with
      | [] => .ok [(initial_url, none, 0)]
      | q1 :: qrest => unpackQueuedRecords (q1 :: qrest) := rfl

/-- A frontier whose only row is the completed seed itself: M = 1
completed rows and N = 0 queued rows. -/
def dbSeedCompleted : Db :=
  [⟨"http://test.com", "http://test.com", none, 0, some "T", [], "other", .completed⟩]

/-- **C5, counterexample.**  The claim says a resumed run never issues a
fetch attempt for one of the M completed URLs, and fetches only the N
queued URLs plus URLs discovered from them; but on a frontier with N = 0
queued rows whose M = 1 completed row is the seed's own record, resuming
with `start_fresh=false` finds no queued rows, falls back to the seed
work list, and issues a fetch attempt for the completed seed.  (With
N ≥ 1 the claim fails differently: recovery tuple-unpacks the
`UrlToProcess` rows and raises a `TypeError`, so the N queued URLs are
never fetched at all — see the amended theorem.) -/
theorem fresh_fallback_refetches_completed_seed :
    (findRecord dbSeedCompleted "http://test.com" "http://test.com").map
        ScrapedUrl.status = some .completed ∧
    get_queued_urls dbSeedCompleted "http://test.com" = [] ∧
    ("http://test.com", 0) ∈
      (scrape (fun _ => none) (fun _ => "other") false dbSeedCompleted
        "http://test.com" 1 5).2.fetchLog := by
  refine ⟨by rfl, by rfl, by decide⟩

/-- A frontier left by a prior run: one completed row (`http://a.com/x`)
and one queued row (`http://test.com/b`) for root `http://test.com`. -/
def dbResume : Db :=
  [⟨"http://test.com", "http://a.com/x", none, 0, some "T", [], "other", .completed⟩,
   ⟨"http://test.com", "http://test.com/b", some "http://test.com", 1, none, [], "other",
    .queued⟩]

/-- The queued page of the resume scenario links to the already-completed
URL. -/
def soupLinksToCompleted : Soup := ⟨[⟨"http://a.com/x", "link", none⟩], some "B", []⟩

/-- The resume-scenario fetch oracle. -/
def fetchResume : String → Option Soup := fun u =>
  if u == "http://test.com/b" then some soupLinksToCompleted else none

/-- **C5** (amended): for a validated call, resuming with
`start_fresh=false` behaves as follows.  When the frontier holds at least
one queued row, recovery tuple-unpacks the recovered `UrlToProcess`
dataclass rows and raises a `TypeError` before any fetch is issued or any
store row is touched, so none of the N queued URLs is fetched.  When it
holds none, the run starts fresh from the seed, and every fetch attempt
is for the seed or for a URL discovered as a link on a page fetched
during the run — completed rows are not consulted, so the seed or a
rediscovered completed URL is fetched again. -/
theorem resume_typeerror_or_fresh_seed (fetch : String → Option Soup)
    (classify : String → String) (db : Db) (initial_url : String)
    (max_depth : Int) (fuel : Nat) (hv : is_valid_url initial_url = true)
    (hd : ¬max_depth < 0) :
    (get_queued_urls db initial_url ≠ [] →
      scrape fetch classify false db initial_url max_depth fuel =
        (some "TypeError: cannot unpack non-iterable UrlToProcess object",
          ⟨db, [], [], []⟩)) ∧
    (get_queued_urls db initial_url = [] →
      ∀ p ∈ (scrape fetch classify false db initial_url max_depth fuel).2.fetchLog,
        p.1 = initial_url ∨
          DiscoveredFrom fetch
            (scrape fetch classify false db initial_url max_depth fuel).2.visited p.1) := by
  have hvn : ¬(!(is_valid_url initial_url)) = true := by simp [hv]
  constructor
  · intro hq
    obtain ⟨q1, qrest, hcons⟩ :
        ∃ q1 qrest, get_queued_urls db initial_url = q1 :: qrest := by
      cases h : get_queued_urls db initial_url with
      | nil => exact absurd h hq
      | cons a b => exact ⟨a, b, rfl⟩
    unfold scrape
    rw [if_neg hd, if_neg hvn, recover_previous_state_false, hcons]
    rfl
  · intro hq
    have hs : scrape fetch classify false db initial_url max_depth fuel =
        (none, scrapeLoop fetch classify initial_url max_depth.toNat fuel
          ⟨db, [], [], []⟩ [(initial_url, none, 0)]) := by
      unfold scrape
      rw [if_neg hd, if_neg hvn, recover_previous_state_false, hq]
    rw [hs]
    intro p hp
    have horigin := scrapeLoop_fetch_origin fetch classify initial_url max_depth.toNat
      [initial_url] fuel ⟨db, [], [], []⟩ [(initial_url, none, 0)]
      (fun it hit => Or.inl (by rw [List.mem_singleton.mp hit]; exact List.mem_singleton.mpr rfl))
      (fun q hq2 => absurd hq2 (List.not_mem_nil q)) p hp
    rcases horigin with h | h
    · exact Or.inl (List.mem_singleton.mp h)
    · exact Or.inr h

/-- Witness for `resume_typeerror_or_fresh_seed`: the `TypeError` branch
on the one-queued-row frontier, and the fresh-seed branch on the
completed-seed frontier. -/
theorem resume_typeerror_or_fresh_seed_witness :
    (get_queued_urls dbResume "http://test.com" ≠ [] ∧
      scrape fetchResume (fun _ => "other") false dbResume "http://test.com" 2 10 =
        (some "TypeError: cannot unpack non-iterable UrlToProcess object",
          ⟨dbResume, [], [], []⟩)) ∧
    (get_queued_urls dbSeedCompleted "http://test.com" = [] ∧
      ∀ p ∈ (scrape (fun _ => none) (fun _ => "other") false dbSeedCompleted
          "http://test.com" 1 5).2.fetchLog,
        p.1 = "http://test.com" ∨
          DiscoveredFrom (fun _ => none)
            (scrape (fun _ => none) (fun _ => "other") false dbSeedCompleted
              "http://test.com" 1 5).2.visited p.1) :=
  ⟨⟨by decide,
      (resume_typeerror_or_fresh_seed fetchResume (fun _ => "other") dbResume
        "http://test.com" 2 10 (by rfl) (by decide)).1 (by decide)⟩,
    ⟨by rfl,
      (resume_typeerror_or_fresh_seed (fun _ => none) (fun _ => "other") dbSeedCompleted
        "http://test.com" 1 5 (by rfl) (by decide)).2 (by rfl)⟩⟩

/-! ## Depth bound (C6) -/

/-- Every record of the crawl root is either untouched from the initial
store or has depth at most `max_depth`. -/
def DepthInv (db0 : Db) (initial_url : String) (max_depth : Nat) (db : Db) : Prop :=
  ∀ u, findRecord db initial_url u = findRecord db0 initial_url u ∨
    ∃ r, findRecord db initial_url u = some r ∧ r.depth ≤ max_depth

/-- An upsert of the crawl root at a bounded depth preserves the depth
invariant. -/
theorem DepthInv_upsert (db0 : Db) (initial_url : String) (max_depth : Nat)
    (db : Db) (h : DepthInv db0 initial_url max_depth db) (u0 : String)
    (src : Option String) (d : Nat) (t : Option String)
    (l : List (String × String)) (st : UrlStatus) (tp : String)
    (hd : d ≤ max_depth) :
    DepthInv db0 initial_url max_depth
      (upsert_scraped_url db initial_url u0 src d t l st tp) := by
  intro u
  by_cases hu : u = u0
  · subst hu
    right
    exact ⟨_, findRecord_upsert_self db initial_url u src d t l st tp, hd⟩
  · rw [findRecord_upsert_other db initial_url u0 initial_url u src d t l st tp
      (fun hk => hu hk.2)]
    exact h u

/-- A status update preserves the depth invariant, provided it either
targets a different base key or the targeted record of the crawl root
already has bounded depth. -/
theorem DepthInv_update_status (db0 : Db) (initial_url : String) (max_depth : Nat)
    (db : Db) (h : DepthInv db0 initial_url max_depth db) (b2 u0 : String)
    (st : UrlStatus)
    (hcase : b2 ≠ initial_url ∨
      ∃ r, findRecord db initial_url u0 = some r ∧ r.depth ≤ max_depth) :
    DepthInv db0 initial_url max_depth (update_status db b2 u0 st) := by
  intro u
  by_cases hk : initial_url = b2 ∧ u = u0
  · obtain ⟨hb, hu⟩ := hk
    subst hb
    subst hu
    rcases hcase with hb2 | ⟨r, hr, hd⟩
    · exact absurd rfl hb2
    · right
      rw [findRecord_update_status_self, hr]
      exact ⟨_, rfl, hd⟩
  · rw [findRecord_update_status_other db b2 u0 initial_url u st hk]
    exact h u

/-- One sequential step preserves the depth invariant and the bound on
logged fetch depths. -/
theorem scrapeStep_depth_inv (fetch : String → Option Soup)
    (classify : String → String) (initial_url : String) (max_depth : Nat)
    (db0 : Db) (s : CrawlState) (it : WorkItem)
    (hdb : DepthInv db0 initial_url max_depth s.db)
    (hlog : ∀ p ∈ s.fetchLog, p.2 ≤ max_depth) :
    DepthInv db0 initial_url max_depth
      (scrapeStep fetch classify initial_url max_depth s it).1.db ∧
    ∀ p ∈ (scrapeStep fetch classify initial_url max_depth s it).1.fetchLog,
      p.2 ≤ max_depth := by
  obtain ⟨url, src, depth⟩ := it
  simp only [scrapeStep]
  by_cases hg : s.visited.contains url ∨ depth > max_depth
  · rw [if_pos hg]
    exact ⟨hdb, hlog⟩
  · rw [if_neg hg]
    have hd : depth ≤ max_depth := not_lt.mp (fun hlt => hg (Or.inr hlt))
    have hinv1 : DepthInv db0 initial_url max_depth
        (insert_to_db_as_queued s.db initial_url url src depth) :=
      DepthInv_upsert db0 initial_url max_depth s.db hdb url src depth none []
        .queued "other" hd
    have hlog1 : ∀ p ∈ s.fetchLog ++ [(url, depth)], p.2 ≤ max_depth := by
      intro p hp
      rcases List.mem_append.mp hp with hmem | hmem
      · exact hlog p hmem
      · rw [List.mem_singleton.mp hmem]
        exact hd
    cases fetch url with
    | some soup =>
      dsimp only
      refine ⟨?_, hlog1⟩
      exact DepthInv_upsert db0 initial_url max_depth _ hinv1 url src depth
        (some (get_title soup)) (extract_links_with_text soup url) .completed
        (classify (extract_page_text soup)) hd
    | none =>
      dsimp only
      refine ⟨?_, hlog1⟩
      apply DepthInv_update_status db0 initial_url max_depth _ hinv1 initial_url url
        .completed
      right
      exact ⟨_, findRecord_upsert_self s.db initial_url url src depth none []
        .queued "other", hd⟩

/-- The sequential loop preserves the depth invariant and the bound on
logged fetch depths. -/
theorem scrapeLoop_depth_inv (fetch : String → Option Soup)
    (classify : String → String) (initial_url : String) (max_depth : Nat)
    (db0 : Db) :
    ∀ (fuel : Nat) (s : CrawlState) (wl : List WorkItem),
      DepthInv db0 initial_url max_depth s.db →
      (∀ p ∈ s.fetchLog, p.2 ≤ max_depth) →
      DepthInv db0 initial_url max_depth
        (scrapeLoop fetch classify initial_url max_depth fuel s wl).db ∧
      ∀ p ∈ (scrapeLoop fetch classify initial_url max_depth fuel s wl).fetchLog,
        p.2 ≤ max_depth := by
  intro fuel
  induction fuel with
  | zero =>
    intro s wl h1 h2
    rw [scrapeLoop_zero]
    exact ⟨h1, h2⟩
  | succ n ih =>
    intro s wl h1 h2
    cases wl with
    | nil =>
      rw [scrapeLoop_nil]
      exact ⟨h1, h2⟩
    | cons it rest =>
      rw [scrapeLoop_cons]
      obtain ⟨h1', h2'⟩ :=
        scrapeStep_depth_inv fetch classify initial_url max_depth db0 s it h1 h2
      exact ih _ _ h1' h2'

/-- One concurrent unit preserves the depth invariant and the log bound,
for an item at bounded depth — whatever element the failure path picks as
`base_url`. -/
theorem ascrapeUnit_depth_inv (fetch : String → Option Soup)
    (classify : String → String) (pickFn : List String → String)
    (initial_url : String) (max_depth : Nat) (db0 : Db) (s : CrawlState)
    (it : WorkItem) (hd : it.2.2 ≤ max_depth)
    (hdb : DepthInv db0 initial_url max_depth s.db)
    (hlog : ∀ p ∈ s.fetchLog, p.2 ≤ max_depth) :
    DepthInv db0 initial_url max_depth
      (ascrapeUnit fetch classify pickFn initial_url s it).1.db ∧
    ∀ p ∈ (ascrapeUnit fetch classify pickFn initial_url s it).1.fetchLog,
      p.2 ≤ max_depth := by
  obtain ⟨url, src, depth⟩ := it
  replace hd : depth ≤ max_depth := hd
  simp only [ascrapeUnit]
  by_cases hg : s.visited.contains url = true
  · rw [if_pos hg]
    exact ⟨hdb, hlog⟩
  · rw [if_neg hg]
    have hinv1 : DepthInv db0 initial_url max_depth
        (insert_to_db_as_queued s.db initial_url url src depth) :=
      DepthInv_upsert db0 initial_url max_depth s.db hdb url src depth none []
        .queued "other" hd
    have hlog1 : ∀ p ∈ s.fetchLog ++ [(url, depth)], p.2 ≤ max_depth := by
      intro p hp
      rcases List.mem_append.mp hp with hmem | hmem
      · exact hlog p hmem
      · rw [List.mem_singleton.mp hmem]
        exact hd
    cases fetch url with
    | some soup =>
      dsimp only
      refine ⟨?_, hlog1⟩
      exact DepthInv_upsert db0 initial_url max_depth _ hinv1 url src depth
        (some (get_title soup)) (extract_links_with_text soup url) .completed
        (classify (extract_page_text soup)) hd
    | none =>
      dsimp only
      refine ⟨?_, hlog1⟩
      apply DepthInv_update_status db0 initial_url max_depth _ hinv1
        (pickFn (url :: s.visited)) url .completed
      right
      exact ⟨_, findRecord_upsert_self s.db initial_url url src depth none []
        .queued "other", hd⟩

/-- Running a level's units preserves the depth invariant and the log
bound when all the tasks sit at bounded depth. -/
theorem ascrapeTasks_depth_inv (fetch : String → Option Soup)
    (classify : String → String) (pickFn : List String → String)
    (initial_url : String) (max_depth : Nat) (db0 : Db) :
    ∀ (tasks : List WorkItem) (s : CrawlState) (acc : List WorkItem),
      (∀ it ∈ tasks, it.2.2 ≤ max_depth) →
      DepthInv db0 initial_url max_depth s.db →
      (∀ p ∈ s.fetchLog, p.2 ≤ max_depth) →
      DepthInv db0 initial_url max_depth
        (ascrapeTasks fetch classify pickFn initial_url s acc tasks).1.db ∧
      ∀ p ∈ (ascrapeTasks fetch classify pickFn initial_url s acc tasks).1.fetchLog,
        p.2 ≤ max_depth := by
  intro tasks
  induction tasks with
  | nil =>
    intro s acc _ h2 h3
    exact ⟨h2, h3⟩
  | cons it rest ih =>
    intro s acc hall h2 h3
    obtain ⟨h2', h3'⟩ := ascrapeUnit_depth_inv fetch classify pickFn initial_url
      max_depth db0 s it (hall it (by simp)) h2 h3
    exact ih _ _ (fun x hx => hall x (by simp [hx])) h2' h3'

/-- Processing one level preserves the depth invariant and the log bound
when the level's depth is bounded. -/
theorem ascrapeLevel_depth_inv (fetch : String → Option Soup)
    (classify : String → String) (pickFn : List String → String)
    (initial_url : String) (max_depth : Nat) (db0 : Db) (s : CrawlState)
    (worklist : List WorkItem) (current_depth : Nat)
    (hd : current_depth ≤ max_depth)
    (h2 : DepthInv db0 initial_url max_depth s.db)
    (h3 : ∀ p ∈ s.fetchLog, p.2 ≤ max_depth) :
    DepthInv db0 initial_url max_depth
      (ascrapeLevel fetch classify pickFn initial_url s worklist current_depth).1.db ∧
    ∀ p ∈ (ascrapeLevel fetch classify pickFn initial_url s worklist
        current_depth).1.fetchLog, p.2 ≤ max_depth := by
  simp only [ascrapeLevel]
  by_cases he : (worklist.filter (fun it => it.2.2 == current_depth)).isEmpty = true
  · rw [if_pos he]
    exact ⟨h2, h3⟩
  · rw [if_neg he]
    dsimp only
    apply ascrapeTasks_depth_inv fetch classify pickFn initial_url max_depth db0 _ s []
      ?_ h2 h3
    intro it hit
    have h1 := List.mem_filter.mp hit
    have hdep := List.mem_filter.mp h1.1
    have : it.2.2 = current_depth := by simpa using hdep.2
    rw [this]
    exact hd

/-- Folding the level loop over bounded depths preserves the depth
invariant and the log bound. -/
theorem ascrape_levels_foldl_inv (fetch : String → Option Soup)
    (classify : String → String) (pickFn : List String → String)
    (initial_url : String) (max_depth : Nat) (db0 : Db) :
    ∀ (ds : List Nat) (s : CrawlState) (wl : List WorkItem),
      (∀ d ∈ ds, d ≤ max_depth) →
      DepthInv db0 initial_url max_depth s.db →
      (∀ p ∈ s.fetchLog, p.2 ≤ max_depth) →
      DepthInv db0 initial_url max_depth
        ((ds.foldl (fun acc d =>
          ascrapeLevel fetch classify pickFn initial_url acc.1 acc.2 d) (s, wl)).1).db ∧
      ∀ p ∈ ((ds.foldl (fun acc d =>
          ascrapeLevel fetch classify pickFn initial_url acc.1 acc.2 d)
          (s, wl)).1).fetchLog, p.2 ≤ max_depth := by
  intro ds
  induction ds with
  | nil =>
    intro s wl _ h2 h3
    exact ⟨h2, h3⟩
  | cons d rest ih =>
    intro s wl hall h2 h3
    rw [List.foldl_cons]
    obtain ⟨h2', h3'⟩ := ascrapeLevel_depth_inv fetch classify pickFn initial_url
      max_depth db0 s wl d (hall d (by simp)) h2 h3
    exact ih (ascrapeLevel fetch classify pickFn initial_url s wl d).1
      (ascrapeLevel fetch classify pickFn initial_url s wl d).2
      (fun x hx => hall x (by simp [hx])) h2' h3'

/-- The level-synchronous loop preserves the depth invariant and the log
bound. -/
theorem ascrapeLoop_depth_inv (fetch : String → Option Soup)
    (classify : String → String) (pickFn : List String → String)
    (initial_url : String) (max_depth : Nat) (db0 : Db) (s : CrawlState)
    (wl : List WorkItem) (h2 : DepthInv db0 initial_url max_depth s.db)
    (h3 : ∀ p ∈ s.fetchLog, p.2 ≤ max_depth) :
    DepthInv db0 initial_url max_depth
      ((ascrapeLoop fetch classify pickFn initial_url max_depth s wl).1).db ∧
    ∀ p ∈ ((ascrapeLoop fetch classify pickFn initial_url max_depth s wl).1).fetchLog,
      p.2 ≤ max_depth := by
  apply ascrape_levels_foldl_inv fetch classify pickFn initial_url max_depth db0
    (List.range (max_depth + 1)) s wl ?_ h2 h3
  intro d hd
  exact Nat.lt_succ_iff.mp (List.mem_range.mp hd)

/-- **C6.**  For both orchestrators, started on any store contents with
`max_depth = D`: every fetch attempt is issued at depth at most `D`, and
every completed record of the crawl root that the run produced (its stored
row differs from the initial store's row for that key) has depth at most
`D`.  Pre-existing rows the run never touched are exempt, as they were not
produced by this crawl. -/
theorem depth_bound_both (fetch : String → Option Soup) (classify : String → String)
    (pickFn : List String → String) (db : Db) (start_fresh : Bool)
    (initial_url : String) (max_depth fuel : Nat) :
    (∀ p ∈ (scrapeLoop fetch classify initial_url max_depth fuel ⟨db, [], [], []⟩
        (seeded_work_list db start_fresh initial_url)).fetchLog,
      p.2 ≤ max_depth) ∧
    (∀ u r, findRecord (scrapeLoop fetch classify initial_url max_depth fuel
          ⟨db, [], [], []⟩ (seeded_work_list db start_fresh initial_url)).db
          initial_url u = some r →
      r.status = .completed →
      findRecord (scrapeLoop fetch classify initial_url max_depth fuel
          ⟨db, [], [], []⟩ (seeded_work_list db start_fresh initial_url)).db
          initial_url u ≠ findRecord db initial_url u →
      r.depth ≤ max_depth) ∧
    (∀ p ∈ ((ascrapeLoop fetch classify pickFn initial_url max_depth ⟨db, [], [], []⟩
        (seeded_work_list db start_fresh initial_url)).1).fetchLog,
      p.2 ≤ max_depth) ∧
    (∀ u r, findRecord ((ascrapeLoop fetch classify pickFn initial_url max_depth
          ⟨db, [], [], []⟩ (seeded_work_list db start_fresh initial_url)).1).db
          initial_url u = some r →
      r.status = .completed →
      findRecord ((ascrapeLoop fetch classify pickFn initial_url max_depth
          ⟨db, [], [], []⟩ (seeded_work_list db start_fresh initial_url)).1).db
          initial_url u ≠ findRecord db initial_url u →
      r.depth ≤ max_depth) := by
  obtain ⟨hseq1, hseq2⟩ := scrapeLoop_depth_inv fetch classify initial_url max_depth db
    fuel ⟨db, [], [], []⟩ (seeded_work_list db start_fresh initial_url)
    (fun u => Or.inl rfl) (fun p hp => absurd hp (List.not_mem_nil p))
  obtain ⟨hcon1, hcon2⟩ := ascrapeLoop_depth_inv fetch classify pickFn initial_url
    max_depth db ⟨db, [], [], []⟩ (seeded_work_list db start_fresh initial_url)
    (fun u => Or.inl rfl) (fun p hp => absurd hp (List.not_mem_nil p))
  refine ⟨hseq2, ?_, hcon2, ?_⟩
  · intro u r hfind hst hne
    rcases hseq1 u with h | ⟨r', hr', hdep⟩
    · exact absurd h hne
    · rw [hfind] at hr'
      obtain rfl := Option.some.inj hr'
      exact hdep
  · intro u r hfind hst hne
    rcases hcon1 u with h | ⟨r', hr', hdep⟩
    · exact absurd h hne
    · rw [hfind] at hr'
      obtain rfl := Option.some.inj hr'
      exact hdep

end ArpeelyScraper
